import Mathlib

/-!
Shallow embedding of the filename matching engine of `src/components/BatchJob.tsx`
(avsync).  The component keeps an ordered list of raw regex pattern strings,
derives a normalized match key from every filename
(lowercase, then each compiled pattern applied as a global case-insensitive
removal, then trim), filters both directory listings to video extensions,
builds a key-to-name lookup over the foreign list (later entries overwrite
earlier ones), and emits one preview row per reference video plus one batch
work item per matched reference video.

JavaScript string semantics are modelled on `List Char`:
global `String.replace(re, "")` for each pattern shape actually used,
`String.prototype.trim`, truthiness of strings (non-empty), and `||` defaults.
`toLowerCase` is modelled by ASCII `Char.toLower` (all inputs considered here
are ASCII).
-/

/-- The JavaScript whitespace class `\s` (also the set trimmed by
`String.prototype.trim`): space, tab, LF, VT, FF, CR, NBSP and the
Unicode space separators plus BOM and the line separators. -/
def isJsWs (c : Char) : Bool :=
  [' ', '\t', '\n', '\x0b', '\x0c', '\r', ' ', ' ',
   ' ', ' ', ' ', ' ', ' ', ' ', ' ',
   ' ', ' ', ' ', ' ', ' ', ' ', ' ',
   ' ', '　', '﻿'].contains c

/-- JavaScript line terminators, which `.` in a regex does not match. -/
def lineTerm (c : Char) : Bool :=
  ['\n', '\r', ' ', ' '].contains c

/-- Case-insensitive character comparison, as produced by the regex `i` flag
(ASCII folding). -/
def ciEq (a c : Char) : Bool :=
  a.toLower == c.toLower

/-- `String.prototype.trim`: drop JavaScript whitespace from both ends. -/
def jsTrim (s : List Char) : List Char :=
  ((s.dropWhile isJsWs).reverse.dropWhile isJsWs).reverse

/-- The shapes of regular expressions the component actually compiles
(`new RegExp(p, "gi")`); each constructor records the semantics of one
syntactic shape of raw pattern:
extension-at-end, lazy bracketed group, a literal alternation, and a
one-character class (optionally including the whitespace class). -/
inductive Pattern where
  | extAtEnd : Pattern
  | bracketed : Pattern
  | alts : List (List Char) → Pattern
  | cclass : List Char → Bool → Pattern
deriving DecidableEq, Repr

/-- Global replacement by the empty string for a pattern of shape
`\.[^.]+$`: the unique possible match starts at the last dot, provided at
least one character follows it, and runs to the end of the string. -/
def stripExt (s : List Char) : List Char :=
  match s.reverse.span (fun c => c != '.') with
  | (suffix, '.' :: rest) => if suffix.isEmpty then s else rest.reverse
  | _ => s

/-- Consume characters up to and including the first right bracket, the way
the lazy `.*?\]` tail of `\[.*?\]` does; fails if a line terminator (which
`.` cannot match) comes first, or if no right bracket follows. -/
def takeToRB : List Char → Option (List Char)
  | [] => none
  | c :: rest => if c = ']' then some rest
                 else if lineTerm c then none
                 else takeToRB rest

/-- Fuel-indexed worker for `stripBrackets`; the fuel is only there to make
the recursion structural, and `stripBracketsF_fuel` shows any fuel of at
least the list length gives the same answer, so the wrapper below computes
the unbounded recursion of the regex engine. -/
def stripBracketsF : Nat → List Char → List Char
  | _, [] => []
  | 0, l => l
  | fuel + 1, c :: rest =>
    if c = '[' then
      match takeToRB rest with
      | some rest' => stripBracketsF fuel rest'
      | none => c :: stripBracketsF fuel rest
    else c :: stripBracketsF fuel rest

/-- Global replacement by the empty string for the pattern `\[.*?\]`:
repeatedly delete from a left bracket through the first right bracket after
it; a left bracket with no reachable right bracket stays. -/
def stripBrackets (s : List Char) : List Char :=
  stripBracketsF s.length s

/-- Try to strip word `w` as a case-insensitive prefix of `s`, returning the
remainder on success. -/
def ciPrefixRest : List Char → List Char → Option (List Char)
  | [], s => some s
  | _ :: _, [] => none
  | a :: as, c :: cs => if ciEq a c then ciPrefixRest as cs else none

/-- First alternative of `ws` (in declaration order, as regex alternation
tries them) matching case-insensitively at the head of `s`; returns the
remainder after the matched word.  Empty alternatives are skipped (none of
the compiled patterns has one). -/
def firstAltRest (ws : List (List Char)) (s : List Char) : Option (List Char) :=
  match ws with
  | [] => none
  | w :: ws' =>
    if w.isEmpty then firstAltRest ws' s
    else match ciPrefixRest w s with
         | some rest => some rest
         | none => firstAltRest ws' s

/-- Fuel-indexed worker for `stripAlts`; as with `stripBracketsF`, the fuel
only makes the recursion structural and `stripAltsF_fuel` shows any fuel of
at least the list length computes the unbounded recursion. -/
def stripAltsF (ws : List (List Char)) : Nat → List Char → List Char
  | _, [] => []
  | 0, l => l
  | fuel + 1, c :: rest =>
    match firstAltRest ws (c :: rest) with
    | some rest' => stripAltsF ws fuel rest'
    | none => c :: stripAltsF ws fuel rest

/-- Global replacement by the empty string for a literal alternation pattern
`(w1|w2|...)` with the `gi` flags: scan left to right, deleting the first
alternative that matches at each position, resuming after the match. -/
def stripAlts (ws : List (List Char)) (s : List Char) : List Char :=
  stripAltsF ws s.length s

/-- Membership in a one-character class such as `[-_.\s]`, case-insensitive
(`i` flag), with an optional `\s` member. -/
def inClass (cs : List Char) (withWs : Bool) (c : Char) : Bool :=
  cs.any (fun a => ciEq a c) || (withWs && isJsWs c)

/-- Global replacement by the empty string for a one-character class:
delete every character of the class. -/
def stripClass (cs : List Char) (withWs : Bool) (s : List Char) : List Char :=
  s.filter (fun c => !(inClass cs withWs c))

/-- `key.replace(p, "")` for one compiled pattern `p` with flags `gi`. -/
def applyP : Pattern → List Char → List Char
  | .extAtEnd, s => stripExt s
  | .bracketed, s => stripBrackets s
  | .alts ws, s => stripAlts ws s
  | .cclass cs w, s => stripClass cs w s

/-- The body of the `for (const p of patterns) key = key.replace(p, '')`
loop of `buildMatchKey`, applying the compiled patterns left to right. -/
def applyLoop : List Pattern → List Char → List Char
  | [], k => k
  | p :: ps, k => applyLoop ps (applyP p k)

/-- `buildMatchKey(filename, patterns)` from BatchJob.tsx: lowercase the
filename, run the replacement loop over the compiled patterns in order,
then trim. -/
def buildMatchKey (filename : String) (ps : List Pattern) : String :=
  ⟨jsTrim (applyLoop ps (filename.data.map Char.toLower))⟩

/-- Modelled from the spec wording for the Match Key (spec section 3): take
lowercase(filename), fold every rule over it in declaration order, each
application removing every occurrence of the pattern, then trim leading and
trailing whitespace. -/
def specMatchKey (filename : String) (ps : List Pattern) : String :=
  ⟨jsTrim (ps.foldl (fun k p => applyP p k) (filename.data.map Char.toLower))⟩

/-- A raw pattern entry of the component state: the raw text the user edits
and the result of `new RegExp(text, "gi")` — `some` compiled pattern, or
`none` when the constructor throws on invalid syntax. -/
structure RawPattern where
  text : String
  parse : Option Pattern
deriving DecidableEq, Repr

/-- `patterns.filter(Boolean).map(p => new RegExp(p, 'gi'))` from
handleLoadJobs: JavaScript truthiness keeps exactly the non-empty strings;
compilation of the survivors either all succeeds or the first bad pattern
throws (modelled by `none` for the whole pass). -/
def compileRegexes (raws : List RawPattern) : Option (List Pattern) :=
  (raws.filter (fun p => p.text != "")).mapM (fun p => p.parse)

/-- The five DEFAULT_PATTERNS of BatchJob.tsx, each with its raw source text
and its compiled semantics. -/
def DEFAULT_PATTERNS : List RawPattern :=
  [ ⟨"\\.[^.]+$", some .extAtEnd⟩,
    ⟨"\\[.*?\\]", some .bracketed⟩,
    ⟨"(1080p|720p|4k)", some (.alts ["1080p".data, "720p".data, "4k".data])⟩,
    ⟨"(ptbr|eng|jap|jp)", some (.alts ["ptbr".data, "eng".data, "jap".data, "jp".data])⟩,
    ⟨"[-_.\\s]", some (.cclass ['-', '_', '.'] true)⟩ ]

/-- The compiled form of the five default patterns. -/
def defaultCompiled : List Pattern :=
  [ .extAtEnd,
    .bracketed,
    .alts ["1080p".data, "720p".data, "4k".data],
    .alts ["ptbr".data, "eng".data, "jap".data, "jp".data],
    .cclass ['-', '_', '.'] true ]

/-- `videoExtensions` from handleLoadJobs. -/
def videoExtensions : List String :=
  [".mkv", ".mp4", ".avi", ".mov", ".m4v"]

/-- `videoExtensions.some(ext => f.toLowerCase().endsWith(ext))`. -/
def hasVideoExt (f : String) : Bool :=
  videoExtensions.any (fun ext => ext.data.isSuffixOf (f.data.map Char.toLower))

/-- A JavaScript `Map<string, string>` used only through `set` and `get`,
modelled by its lookup function. -/
def JsMap : Type := String → Option String

/-- `map.set(k, v)`: later writes overwrite earlier ones. -/
def mapSet (m : JsMap) (k v : String) : JsMap :=
  fun q => if q = k then some v else m q

/-- The empty map. -/
def mapEmpty : JsMap := fun _ => none

/-- The `foreignMap` construction of handleLoadJobs: one forward pass over
the (already filtered) foreign videos, `set(buildMatchKey(f), f)` for each. -/
def buildForeignMap (ps : List Pattern) (fvs : List String) : JsMap :=
  fvs.foldl (fun m f => mapSet m (buildMatchKey f ps) f) mapEmpty

/-- Lifecycle status of a batch job item. -/
inductive JobStatus where
  | pending | processing | completed | failed
deriving DecidableEq, Repr

/-- BatchJobItem from BatchJob.tsx. -/
structure BatchJobItem where
  id : String
  refVideo : String
  foreignVideo : String
  outputVideo : String
  firstSegmentAdjust : Int
  lastSegmentAdjust : Int
  skipSubtitles : Bool
  status : JobStatus
deriving DecidableEq, Repr

/-- The caller-supplied `parameters` object; `none` models an absent (or
falsy) field, so `parameters.x || default` becomes `getD`. -/
structure Params where
  firstSegmentAdjust : Option Int
  lastSegmentAdjust : Option Int
  noSubtitles : Option Bool
deriving DecidableEq, Repr

/-- One row pushed onto `previewRows`: `{ ref: r, foreign: match || null, key }`. -/
structure PreviewRow where
  ref : String
  foreign : Option String
  key : String
deriving DecidableEq, Repr

/-- The object literal pushed onto `matched` for one reference video `r`
matched to foreign video `f`; `idStr` stands for the
`batch-Date.now()-Math.random()` string. -/
def mkItem (idStr refFolder foreignFolder outputFolder r f : String)
    (params : Params) : BatchJobItem :=
  { id := idStr
    refVideo := refFolder ++ "/" ++ r
    foreignVideo := foreignFolder ++ "/" ++ f
    outputVideo := outputFolder ++ "/" ++ r
    firstSegmentAdjust := params.firstSegmentAdjust.getD 0
    lastSegmentAdjust := params.lastSegmentAdjust.getD 0
    skipSubtitles := params.noSubtitles.getD false
    status := .pending }

/-- The `for (const r of refVideos)` loop of handleLoadJobs: one preview row
per reference video, plus one batch item per match.  `ids` is the stream of
generated identifiers (`batch-Date.now()-Math.random()` values) and `k`
counts how many have been consumed so far. -/
def processRefs (ps : List Pattern) (fmap : JsMap)
    (refFolder foreignFolder outputFolder : String) (params : Params)
    (ids : Nat → String) (k : Nat) :
    List String → List PreviewRow × List BatchJobItem
  | [] => ([], [])
  | r :: rs =>
    let key := buildMatchKey r ps
    match fmap key with
    | none =>
      let rest := processRefs ps fmap refFolder foreignFolder outputFolder params ids k rs
      (⟨r, none, key⟩ :: rest.1, rest.2)
    | some f =>
      let rest := processRefs ps fmap refFolder foreignFolder outputFolder params ids (k + 1) rs
      (⟨r, some f, key⟩ :: rest.1,
       mkItem (ids k) refFolder foreignFolder outputFolder r f params :: rest.2)

/-- Rebuild the batch items from the preview rows that found a match,
consuming identifiers from index `k` on; used to state that the work-item
list is exactly the order-preserving image of the matched rows. -/
def itemsFromRows (ids : Nat → String)
    (refFolder foreignFolder outputFolder : String) (params : Params) :
    Nat → List PreviewRow → List BatchJobItem
  | _, [] => []
  | k, row :: rest =>
    mkItem (ids k) refFolder foreignFolder outputFolder row.ref (row.foreign.getD "") params ::
      itemsFromRows ids refFolder foreignFolder outputFolder params (k + 1) rest

/-- The pure core of handleLoadJobs after both listings succeeded and the
patterns compiled: filter both listings to video extensions, build the
foreign lookup, then run the reference loop. -/
def matchPass (ps : List Pattern) (refNames foreignNames : List String)
    (refFolder foreignFolder outputFolder : String) (params : Params)
    (ids : Nat → String) : List PreviewRow × List BatchJobItem :=
  let refVideos := refNames.filter hasVideoExt
  let foreignVideos := foreignNames.filter hasVideoExt
  let fmap := buildForeignMap ps foreignVideos
  processRefs ps fmap refFolder foreignFolder outputFolder params ids 0 refVideos

/-- The component state touched by the match pass: `jobs` and `preview`. -/
structure BJState where
  jobs : List BatchJobItem
  preview : List PreviewRow
deriving DecidableEq, Repr

/-- The alert of the unset-folder guard. -/
def alertFolders : String := "Please select all three folders"

/-- The alert of the catch-all error handler. -/
def alertLoadFail : String := "Failed to load directory contents"

/-- handleLoadJobs: guard on the three folders, then the try block — list
both directories (each listing is passed in as its outcome), compile the
rule set, run the match pass and commit it to state; any throw lands in the
catch, which alerts and leaves the previous state untouched.  Returns the
new state and the alert message, if any. -/
def handleLoadJobs (st : BJState)
    (refFolder foreignFolder outputFolder : String)
    (refListing foreignListing : Except Unit (List String))
    (raws : List RawPattern) (params : Params) (ids : Nat → String) :
    BJState × Option String :=
  if refFolder = "" ∨ foreignFolder = "" ∨ outputFolder = "" then
    (st, some alertFolders)
  else
    match refListing with
    | .error _ => (st, some alertLoadFail)
    | .ok refFiles =>
      match foreignListing with
      | .error _ => (st, some alertLoadFail)
      | .ok foreignFiles =>
        match compileRegexes raws with
        | none => (st, some alertLoadFail)
        | some ps =>
          let result := matchPass ps refFiles foreignFiles
            refFolder foreignFolder outputFolder params ids
          (⟨result.2, result.1⟩, none)

/-- handleAddToQueue: do nothing on an empty job list; otherwise hand the
jobs to `onAddToQueue` (returned as the second component) and clear both
`jobs` and `preview`. -/
def handleAddToQueue (st : BJState) : BJState × Option (List BatchJobItem) :=
  if st.jobs.isEmpty then (st, none)
  else (⟨[], []⟩, some st.jobs)

/-- A batch item with its identifier blanked, for statements that compare
work items up to the generated identifier. -/
def eraseId (j : BatchJobItem) : BatchJobItem :=
  { j with id := "" }

/-! ## Concrete inputs used by the closed theorems -/

/-- A caller configuration with every optional field absent. -/
def params0 : Params := ⟨none, none, none⟩

/-- One possible identifier stream (one draw of Date.now and Math.random
per generated item). -/
def idsA : Nat → String := fun _ => "batch-100-05"

/-- Another identifier stream, as produced by an invocation at a later
timestamp or with other random draws. -/
def idsB : Nat → String := fun _ => "batch-200-07"

/-- A component state holding results of an earlier successful match pass. -/
def st0 : BJState :=
  ⟨[mkItem "old" "/r" "/f" "/o" "kept.mkv" "kept.mp4" params0],
   [⟨"kept.mkv", some "kept.mp4", "kept"⟩]⟩

/-- A whitespace-only (non-empty) raw rule: the raw text is a single space,
which is truthy in JavaScript and compiles to the literal-space regex. -/
def blankRaw : RawPattern := ⟨" ", some (.alts [[' ']])⟩

/-- A raw rule whose text is not valid regex syntax, so `new RegExp`
throws. -/
def invalidRaw : RawPattern := ⟨"(", none⟩

/-- A valid raw rule (the literal regex `x`). -/
def goodRaw : RawPattern := ⟨"x", some (.alts [['x']])⟩

/-! ## Helper lemmas -/

theorem takeToRB_length : ∀ l l', takeToRB l = some l' → l'.length < l.length := by
  intro l
  induction l with
  | nil => intro l' h; simp [takeToRB] at h
  | cons c rest ih =>
    intro l' h
    by_cases hc : c = ']'
    · simp [takeToRB, hc] at h
      subst h; simp
    · by_cases ht : lineTerm c
      · simp [takeToRB, hc, ht] at h
      · simp [takeToRB, hc, ht] at h
        exact Nat.lt_trans (ih l' h) (by simp)


theorem ciPrefixRest_length : ∀ w s rest, ciPrefixRest w s = some rest →
    rest.length + w.length = s.length := by
  intro w
  induction w with
  | nil => intro s rest h; simp [ciPrefixRest] at h; subst h; simp
  | cons a as ih =>
    intro s rest h
    match s with
    | [] => simp [ciPrefixRest] at h
    | c :: cs =>
      by_cases hc : ciEq a c
      · simp [ciPrefixRest, hc] at h
        have := ih cs rest h
        simp [List.length_cons, ← this]
        omega
      · simp [ciPrefixRest, hc] at h


theorem firstAltRest_length : ∀ ws s rest, firstAltRest ws s = some rest →
    rest.length < s.length := by
  intro ws
  induction ws with
  | nil => intro s rest h; simp [firstAltRest] at h
  | cons w ws' ih =>
    intro s rest h
    by_cases hw : w.isEmpty
    · simp [firstAltRest, hw] at h
      exact ih s rest h
    · simp [firstAltRest, hw] at h
      match hp : ciPrefixRest w s with
      | some r =>
        rw [hp] at h
        simp at h
        subst h
        have hlen := ciPrefixRest_length w s r hp
        have : 0 < w.length := by
          cases w with
          | nil => simp [List.isEmpty] at hw
          | cons a as => simp
        omega
      | none =>
        rw [hp] at h
        exact ih s rest h


theorem stripBracketsF_fuel : ∀ (fuel fuel' : Nat) (l : List Char),
    l.length ≤ fuel → l.length ≤ fuel' →
    stripBracketsF fuel l = stripBracketsF fuel' l := by
  intro fuel
  induction fuel with
  | zero =>
    intro fuel' l h _
    have : l = [] := List.eq_nil_of_length_eq_zero (Nat.le_zero.mp h)
    subst this
    cases fuel' <;> rfl
  | succ n ih =>
    intro fuel' l h h'
    match l with
    | [] => cases fuel' <;> rfl
    | c :: rest =>
      match fuel' with
      | 0 => exact absurd h' (by simp)
      | m + 1 =>
        simp only [stripBracketsF]
        have hrest : rest.length ≤ n := by simp at h; omega
        have hrest' : rest.length ≤ m := by simp at h'; omega
        by_cases hc : c = '['
        · simp only [hc, if_true]
          cases ht : takeToRB rest with
          | some rest' =>
            have hlt := takeToRB_length rest rest' ht
            exact ih m rest' (by omega) (by omega)
          | none => rw [ih m rest hrest hrest']
        · simp only [hc, if_false]
          rw [ih m rest hrest hrest']


theorem stripAltsF_fuel (ws : List (List Char)) : ∀ (fuel fuel' : Nat) (l : List Char),
    l.length ≤ fuel → l.length ≤ fuel' →
    stripAltsF ws fuel l = stripAltsF ws fuel' l := by
  intro fuel
  induction fuel with
  | zero =>
    intro fuel' l h _
    have : l = [] := List.eq_nil_of_length_eq_zero (Nat.le_zero.mp h)
    subst this
    cases fuel' <;> rfl
  | succ n ih =>
    intro fuel' l h h'
    match l with
    | [] => cases fuel' <;> rfl
    | c :: rest =>
      match fuel' with
      | 0 => exact absurd h' (by simp)
      | m + 1 =>
        simp only [stripAltsF]
        have hrest : rest.length ≤ n := by simp at h; omega
        have hrest' : rest.length ≤ m := by simp at h'; omega
        cases hf : firstAltRest ws (c :: rest) with
        | some rest' =>
          have hlt := firstAltRest_length ws (c :: rest) rest' hf
          simp at hlt
          exact ih m rest' (by omega) (by omega)
        | none => rw [ih m rest hrest hrest']


theorem applyLoop_eq_foldl (ps : List Pattern) :
    ∀ k : List Char, applyLoop ps k = ps.foldl (fun k p => applyP p k) k := by
  induction ps with
  | nil => intro k; rfl
  | cons p ps ih => intro k; simp [applyLoop, List.foldl, ih]

theorem find?_append_alt (p : String → Bool) :
    ∀ l₁ l₂ : List String, (l₁ ++ l₂).find? p =
      match l₁.find? p with
      | some a => some a
      | none => l₂.find? p := by
  intro l₁ l₂
  induction l₁ with
  | nil => simp
  | cons a l ih =>
    by_cases h : p a
    · simp [List.find?, h]
    · simp [List.find?, h, ih]

theorem buildForeignMap_get_gen (ps : List Pattern) (k : String) :
    ∀ (fvs : List String) (m : JsMap),
      (fvs.foldl (fun m f => mapSet m (buildMatchKey f ps) f) m) k =
        match fvs.reverse.find? (fun f => buildMatchKey f ps == k) with
        | some f => some f
        | none => m k := by
  intro fvs
  induction fvs with
  | nil => intro m; rfl
  | cons f fs ih =>
    intro m
    have step : (f :: fs).foldl (fun m g => mapSet m (buildMatchKey g ps) g) m =
        fs.foldl (fun m g => mapSet m (buildMatchKey g ps) g)
          (mapSet m (buildMatchKey f ps) f) := rfl
    rw [step, ih]
    have hrev : (f :: fs).reverse = fs.reverse ++ [f] := by simp
    rw [hrev, find?_append_alt]
    cases hfind : fs.reverse.find? (fun g => buildMatchKey g ps == k) with
    | some g => simp
    | none =>
      simp only [List.find?]
      by_cases hk : buildMatchKey f ps = k
      · simp [hk, mapSet]
      · have hbk : (buildMatchKey f ps == k) = false := by
          simp [hk]
        simp [hbk, mapSet]
        intro h
        exact absurd h.symm hk

theorem processRefs_preview (ps : List Pattern) (fmap : JsMap)
    (fr ff fo : String) (params : Params) (ids : Nat → String) :
    ∀ (refs : List String) (k : Nat),
      (processRefs ps fmap fr ff fo params ids k refs).1 =
        refs.map (fun r => ⟨r, fmap (buildMatchKey r ps), buildMatchKey r ps⟩) := by
  intro refs
  induction refs with
  | nil => intro k; rfl
  | cons r rs ih =>
    intro k
    cases hm : fmap (buildMatchKey r ps) with
    | none => simp [processRefs, hm, ih]
    | some f => simp [processRefs, hm, ih]

theorem processRefs_items (ps : List Pattern) (fmap : JsMap)
    (fr ff fo : String) (params : Params) (ids : Nat → String) :
    ∀ (refs : List String) (k : Nat),
      (processRefs ps fmap fr ff fo params ids k refs).2 =
        itemsFromRows ids fr ff fo params k
          (((processRefs ps fmap fr ff fo params ids k refs).1).filter
            (fun row => row.foreign.isSome)) := by
  intro refs
  induction refs with
  | nil => intro k; rfl
  | cons r rs ih =>
    intro k
    cases hm : fmap (buildMatchKey r ps) with
    | none => simp [processRefs, hm, List.filter, ih k]
    | some f => simp [processRefs, hm, List.filter, itemsFromRows, ih (k + 1)]

theorem eraseId_mkItem (idStr fr ff fo r f : String) (params : Params) :
    eraseId (mkItem idStr fr ff fo r f params) = mkItem "" fr ff fo r f params := rfl

theorem processRefs_items_erase (ps : List Pattern) (fmap : JsMap)
    (fr ff fo : String) (params : Params) (ids : Nat → String) :
    ∀ (refs : List String) (k : Nat),
      ((processRefs ps fmap fr ff fo params ids k refs).2).map eraseId =
        (refs.filter (fun r => (fmap (buildMatchKey r ps)).isSome)).map
          (fun r => mkItem "" fr ff fo r ((fmap (buildMatchKey r ps)).getD "") params) := by
  intro refs
  induction refs with
  | nil => intro k; rfl
  | cons r rs ih =>
    intro k
    cases hm : fmap (buildMatchKey r ps) with
    | none => simp [processRefs, hm, List.filter, ih k]
    | some f => simp [processRefs, hm, List.filter, ih (k + 1), eraseId_mkItem]

/-! ## Claim theorems -/

/-- C1: for every filename and every ordered list of compiled rules,
buildMatchKey equals the reference definition from the spec: lowercase the
filename, apply each rule in declaration order as a global case-insensitive
removal, then trim leading and trailing whitespace. -/
theorem C1_buildMatchKey_matches_spec (filename : String) (ps : List Pattern) :
    buildMatchKey filename ps = specMatchKey filename ps := by
  unfold buildMatchKey specMatchKey
  rw [applyLoop_eq_foldl]

/-- C3: the foreign lookup is last-write-wins.  For every key, the value the
lookup retains is the first match in the reversed filtered foreign list,
i.e. exactly the foreign filename that appears last in input order; every
reference row is matched through that lookup; and on the spec's collision
example the lookup keeps the later entry, never the earlier one. -/
theorem C3_last_write_wins (ps : List Pattern) (fvs : List String)
    (fr ff fo : String) (params : Params) (ids : Nat → String) (k : String) :
    (buildForeignMap ps fvs k =
      fvs.reverse.find? (fun f => buildMatchKey f ps == k)) ∧
    (∀ r : String,
      (processRefs ps (buildForeignMap ps fvs) fr ff fo params ids 0 [r]).1 =
        [⟨r, fvs.reverse.find? (fun f => buildMatchKey f ps == buildMatchKey r ps),
          buildMatchKey r ps⟩]) ∧
    (buildForeignMap defaultCompiled ["a.mkv", "A.mp4"] "a" = some "A.mp4" ∧
      buildForeignMap defaultCompiled ["a.mkv", "A.mp4"] "a" ≠ some "a.mkv") := by
  have base : ∀ q : String, buildForeignMap ps fvs q =
      fvs.reverse.find? (fun f => buildMatchKey f ps == q) := by
    intro q
    unfold buildForeignMap
    rw [buildForeignMap_get_gen]
    cases fvs.reverse.find? (fun f => buildMatchKey f ps == q) <;> rfl
  refine ⟨base k, ?_, by decide, by decide⟩
  intro r
  rw [processRefs_preview]
  simp [base (buildMatchKey r ps)]

/-- C4: the match pass emits exactly one preview row per filtered reference
video, the rows preserve the iteration order of the filtered reference
list, and the work-item list is exactly the order-preserving image of the
rows that found a foreign match. -/
theorem C4_one_row_per_reference (ps : List Pattern)
    (refNames fgnNames : List String) (fr ff fo : String)
    (params : Params) (ids : Nat → String) :
    ((matchPass ps refNames fgnNames fr ff fo params ids).1.length =
      (refNames.filter hasVideoExt).length) ∧
    ((matchPass ps refNames fgnNames fr ff fo params ids).1.map PreviewRow.ref =
      refNames.filter hasVideoExt) ∧
    ((matchPass ps refNames fgnNames fr ff fo params ids).2 =
      itemsFromRows ids fr ff fo params 0
        ((matchPass ps refNames fgnNames fr ff fo params ids).1.filter
          (fun row => row.foreign.isSome))) := by
  unfold matchPass
  refine ⟨?_, ?_, ?_⟩
  · rw [processRefs_preview]; simp
  · rw [processRefs_preview]; simp [Function.comp_def]
  · exact processRefs_items _ _ _ _ _ _ _ _ _

/-- C2 fails as stated: the generated identifiers are built from Date.now
and Math.random, so two invocations of the match pass on identical name
lists, rules, folders and configuration draw different identifier values
and return work items that differ in the id field. -/
theorem C2_counterexample :
    matchPass defaultCompiled ["a.mkv"] ["a.mp4"] "/r" "/f" "/o" params0 idsA ≠
      matchPass defaultCompiled ["a.mkv"] ["a.mp4"] "/r" "/f" "/o" params0 idsB := by
  decide

/-- C2 (amended): the match pass is deterministic in everything except the
generated identifiers — for a fixed pair of name lists, rule set, folder
paths and configuration, two invocations yield identical preview rows
(field-for-field, same keys, same order) and work items identical in every
field except id, in the same order. -/
theorem C2_deterministic_up_to_ids (ps : List Pattern)
    (refNames fgnNames : List String) (fr ff fo : String) (params : Params)
    (i1 i2 : Nat → String) :
    ((matchPass ps refNames fgnNames fr ff fo params i1).1 =
      (matchPass ps refNames fgnNames fr ff fo params i2).1) ∧
    ((matchPass ps refNames fgnNames fr ff fo params i1).2.map eraseId =
      (matchPass ps refNames fgnNames fr ff fo params i2).2.map eraseId) := by
  unfold matchPass
  constructor
  · rw [processRefs_preview, processRefs_preview]
  · rw [processRefs_items_erase, processRefs_items_erase]

/-- C5 fails as stated: `patterns.filter(Boolean)` drops only the empty
string.  A whitespace-only raw rule (a single space) is truthy, survives
the filter, compiles to the literal-space regex, and is applied — it
changes the key of a filename containing a space. -/
theorem C5_counterexample :
    (compileRegexes [blankRaw] = some [Pattern.alts [[' ']]]) ∧
    (compileRegexes [blankRaw] ≠ some []) ∧
    (buildMatchKey "a b" [Pattern.alts [[' ']]] = "ab") ∧
    (buildMatchKey "a b" [] = "a b") := by
  refine ⟨by decide, by decide, by decide, by decide⟩

/-- C5 (amended): exactly the empty raw pattern strings are filtered out
before compilation — an empty rule at any position is never compiled and
never applied (in particular it cannot collapse every match key to the
empty string); whitespace-only non-empty rules are not filtered. -/
theorem C5_empty_rule_dropped (px : Option Pattern) (l1 l2 : List RawPattern) :
    compileRegexes (l1 ++ ⟨"", px⟩ :: l2) = compileRegexes (l1 ++ l2) := by
  unfold compileRegexes
  simp [List.filter_append, List.filter]

/-- C6 fails as stated: on a compile failure the match pass does produce
nothing and leaves the previous state untouched, but the error reported is
the generic catch-all alert, which is byte-for-byte the same whether the
failing pattern is at index 1, at index 0, or there is no failing pattern
at all and a directory listing failed instead — so the report identifies
neither a CompileError nor the failing pattern index. -/
theorem C6_counterexample :
    (handleLoadJobs st0 "/r" "/f" "/o" (.ok ["a.mkv"]) (.ok ["a.mp4"])
        [goodRaw, invalidRaw] params0 idsA = (st0, some alertLoadFail)) ∧
    (handleLoadJobs st0 "/r" "/f" "/o" (.ok ["a.mkv"]) (.ok ["a.mp4"])
        [invalidRaw, goodRaw] params0 idsA = (st0, some alertLoadFail)) ∧
    (handleLoadJobs st0 "/r" "/f" "/o" (.error ()) (.ok ["a.mp4"])
        [goodRaw] params0 idsA = (st0, some alertLoadFail)) := by
  refine ⟨by decide, by decide, by decide⟩

/-- C6 (amended): if the rule set fails to compile (all three folders being
set), the match pass produces zero preview rows and zero work items and the
previously held state is unchanged, but the error is reported only as the
generic directory-failure alert, with no indication of the failing pattern
index. -/
theorem C6_compile_failure_blocks (st : BJState)
    (fr ff fo : String) (refL fgnL : Except Unit (List String))
    (raws : List RawPattern) (params : Params) (ids : Nat → String)
    (hfr : fr ≠ "") (hff : ff ≠ "") (hfo : fo ≠ "")
    (hc : compileRegexes raws = none) :
    handleLoadJobs st fr ff fo refL fgnL raws params ids =
      (st, some alertLoadFail) := by
  unfold handleLoadJobs
  rw [if_neg (by simp [hfr, hff, hfo])]
  cases refL with
  | error e => rfl
  | ok refFiles =>
    cases fgnL with
    | error e => rfl
    | ok fgnFiles => rw [hc]

/-- Witness for C6 (amended): a concrete invalid rule set at concrete
folders leaves a concrete previous state unchanged and raises the generic
alert. -/
theorem C6_compile_failure_blocks_witness :
    handleLoadJobs st0 "/r" "/f" "/o" (.ok ["a.mkv"]) (.ok ["a.mp4"])
      [invalidRaw] params0 idsA = (st0, some alertLoadFail) :=
  C6_compile_failure_blocks st0 "/r" "/f" "/o" (.ok ["a.mkv"]) (.ok ["a.mp4"])
    [invalidRaw] params0 idsA (by decide) (by decide) (by decide) (by decide)

/-- C7: with the five default rules, the spec's join example works out —
both filenames normalize to the key shows01e01, the raw default patterns
compile to exactly the modelled semantics, and the match pass produces
exactly one work item whose output path joins the output folder with the
reference (not the foreign) filename. -/
theorem C7_default_rules_join :
    (buildMatchKey "Show.S01E01.1080p.mkv" defaultCompiled = "shows01e01") ∧
    (buildMatchKey "show_s01e01_eng.mp4" defaultCompiled = "shows01e01") ∧
    (compileRegexes DEFAULT_PATTERNS = some defaultCompiled) ∧
    ((matchPass defaultCompiled ["Show.S01E01.1080p.mkv"] ["show_s01e01_eng.mp4"]
        "/r" "/f" "/o" params0 idsA).2 =
      [{ id := "batch-100-05",
         refVideo := "/r/Show.S01E01.1080p.mkv",
         foreignVideo := "/f/show_s01e01_eng.mp4",
         outputVideo := "/o/Show.S01E01.1080p.mkv",
         firstSegmentAdjust := 0,
         lastSegmentAdjust := 0,
         skipSubtitles := false,
         status := .pending }]) := by
  refine ⟨by decide, by decide, by decide, by decide⟩

/-- C8: only filenames whose lowercased suffix is one of .mkv, .mp4, .avi,
.mov, .m4v participate — inserting a file with any other extension into
either name list anywhere leaves the whole match pass unchanged, and every
preview row's reference filename has an allowed extension. -/
theorem C8_extension_filtering (ps : List Pattern)
    (refNames fgnNames r1 r2 g1 g2 : List String) (fr ff fo : String)
    (params : Params) (ids : Nat → String) (f : String)
    (h : hasVideoExt f = false) :
    (matchPass ps (r1 ++ f :: r2) fgnNames fr ff fo params ids =
      matchPass ps (r1 ++ r2) fgnNames fr ff fo params ids) ∧
    (matchPass ps refNames (g1 ++ f :: g2) fr ff fo params ids =
      matchPass ps refNames (g1 ++ g2) fr ff fo params ids) ∧
    (∀ row ∈ (matchPass ps refNames fgnNames fr ff fo params ids).1,
      hasVideoExt row.ref = true) := by
  refine ⟨?_, ?_, ?_⟩
  · unfold matchPass
    simp [List.filter_append, List.filter_cons, h]
  · unfold matchPass
    simp [List.filter_append, List.filter_cons, h]
  · unfold matchPass
    rw [processRefs_preview]
    intro row hrow
    simp only [List.mem_map] at hrow
    obtain ⟨r, hr, hrw⟩ := hrow
    rw [← hrw]
    exact List.of_mem_filter hr

/-- Witness for C8: the file notes.txt has no allowed extension, and adding
it to either list of a concrete match pass changes nothing. -/
theorem C8_extension_filtering_witness :
    (hasVideoExt "notes.txt" = false) ∧
    (matchPass defaultCompiled ["a.mkv", "notes.txt"] ["a.mp4"]
        "/r" "/f" "/o" params0 idsA =
      matchPass defaultCompiled ["a.mkv"] ["a.mp4"] "/r" "/f" "/o" params0 idsA) ∧
    (matchPass defaultCompiled ["a.mkv"] ["notes.txt", "a.mp4"]
        "/r" "/f" "/o" params0 idsA =
      matchPass defaultCompiled ["a.mkv"] ["a.mp4"] "/r" "/f" "/o" params0 idsA) := by
  have h := C8_extension_filtering defaultCompiled ["a.mkv"] ["a.mp4"]
    ["a.mkv"] [] [] ["a.mp4"] "/r" "/f" "/o" params0 idsA "notes.txt" (by decide)
  exact ⟨by decide, h.1, h.2.1⟩

/-- C9: the job list is handed to onAddToQueue only when it is non-empty,
the invocation clears both the job list and the preview list, and a second
add-to-queue request (with no reload in between) hands nothing to the
queue, so no work item is handed twice. -/
theorem C9_add_to_queue_once (st : BJState) :
    (st.jobs = [] → handleAddToQueue st = (st, none)) ∧
    (st.jobs ≠ [] → handleAddToQueue st = (⟨[], []⟩, some st.jobs)) ∧
    ((handleAddToQueue (handleAddToQueue st).1).2 = none) := by
  refine ⟨?_, ?_, ?_⟩
  · intro h
    simp [handleAddToQueue, h]
  · intro h
    cases hj : st.jobs with
    | nil => exact absurd hj h
    | cons j js => simp [handleAddToQueue, hj]
  · cases hj : st.jobs with
    | nil => simp [handleAddToQueue, hj]
    | cons j js => simp [handleAddToQueue, hj]

/-- Witness for C9: on a state with one pending job, the job list is handed
over and cleared, and a second request hands nothing. -/
theorem C9_add_to_queue_once_witness :
    (handleAddToQueue st0 = (⟨[], []⟩, some st0.jobs)) ∧
    ((handleAddToQueue (handleAddToQueue st0).1).2 = none) :=
  ⟨(C9_add_to_queue_once st0).2.1 (by decide), (C9_add_to_queue_once st0).2.2⟩

/-- C10: matching is many-to-one from reference to foreign with no
deduplication on the reference side — every reference video yields its own
preview row, the work items (up to the generated id) are exactly one per
matched reference in order, each paired with the lookup value of its key,
and in particular two references sharing one key both get work items paired
with the same single foreign filename. -/
theorem C10_many_to_one (ps : List Pattern) (fmap : JsMap)
    (fr ff fo : String) (params : Params) (ids : Nat → String)
    (refs : List String) (k : Nat) :
    ((processRefs ps fmap fr ff fo params ids k refs).1.map PreviewRow.ref = refs) ∧
    ((processRefs ps fmap fr ff fo params ids k refs).2.map eraseId =
      (refs.filter (fun r => (fmap (buildMatchKey r ps)).isSome)).map
        (fun r => mkItem "" fr ff fo r ((fmap (buildMatchKey r ps)).getD "") params)) ∧
    (∀ r1 r2 f, buildMatchKey r1 ps = buildMatchKey r2 ps →
      fmap (buildMatchKey r1 ps) = some f →
      (processRefs ps fmap fr ff fo params ids k [r1, r2]).2.map eraseId =
        [mkItem "" fr ff fo r1 f params, mkItem "" fr ff fo r2 f params]) := by
  refine ⟨?_, processRefs_items_erase ps fmap fr ff fo params ids refs k, ?_⟩
  · rw [processRefs_preview]
    simp [Function.comp_def]
  · intro r1 r2 f heq hsome
    rw [processRefs_items_erase]
    simp [List.filter, hsome, ← heq]

/-- Witness for C10: two reference files normalizing to the same key both
produce work items, paired with the same foreign file. -/
theorem C10_many_to_one_witness :
    (processRefs defaultCompiled (buildForeignMap defaultCompiled ["a.avi"])
        "/r" "/f" "/o" params0 idsA 0 ["A.mkv", "a.mp4"]).2.map eraseId =
      [mkItem "" "/r" "/f" "/o" "A.mkv" "a.avi" params0,
       mkItem "" "/r" "/f" "/o" "a.mp4" "a.avi" params0] :=
  (C10_many_to_one defaultCompiled (buildForeignMap defaultCompiled ["a.avi"])
      "/r" "/f" "/o" params0 idsA [] 0).2.2 "A.mkv" "a.mp4" "a.avi"
    (by decide) (by decide)
